import Mathlib

/-!
Shallow embedding of `markdown2html.py`, a four-stage line-oriented
Markdown-to-HTML converter, together with proofs of its specification.

Lines are modelled as lists of characters (`Line`); a Python string
becomes a `List Char`.  Each Python function is translated directly:

* `convert_markdown_heading_to_html`  — per-line heading rewriter
  (`for i in range(6, 0, -1): if line.startswith("#"*i + " "): ...`);
* `convert_markdown_ul_list_to_html`  — unordered-list grouper, a fold
  carrying the `in_list` flag and the output buffer;
* `convert_markdown_ol_list_to_html`  — ordered-list grouper, same shape;
* `convert_markdown_paragraph_to_html` — paragraph grouper, a fold
  carrying the `in_paragraph` flag and the output buffer, where closing a
  paragraph rewrites the last buffered line with
  `.replace("<br/>\n", "\n")`;
* `main` — the CLI entry point, with `sys.argv` as an explicit argument
  list and the file system abstracted as a lookup from path to contents.
-/

/-- A text line: Python strings are modelled as lists of characters. -/
abbrev Line := List Char

/-- Characters of a Lean string literal, used to write concrete lines. -/
def str (s : String) : Line := s.data

/-- Python `str.strip` whitespace test (the ASCII whitespace characters;
the source file only ever contains ASCII). -/
def isPyWS (c : Char) : Bool :=
  c == ' ' || c == '\t' || c == '\n' || c == '\r' || c == '\x0b' || c == '\x0c'

/-- Python `str.strip()`: remove leading and trailing whitespace. -/
def pyStrip (l : Line) : Line :=
  ((l.dropWhile isPyWS).reverse.dropWhile isPyWS).reverse

/-- Scanner for Python `str.replace(pat, rep)`.  The `Nat` argument counts
characters still to be skipped because they belong to an occurrence that
was just replaced; scanning is left-to-right and non-overlapping, exactly
as in Python.  (Python's behaviour for an empty pattern is never used by
the source program; the guard makes an empty pattern a no-op.) -/
def replGo (pat rep : Line) : Nat → Line → Line
  | _, [] => []
  | 0, c :: cs =>
    if pat ≠ [] ∧ pat.isPrefixOf (c :: cs) then
      rep ++ replGo pat rep (pat.length - 1) cs
    else
      c :: replGo pat rep 0 cs
  | k + 1, _ :: cs => replGo pat rep k cs

/-- Python `s.replace(pat, rep)`: replace every occurrence, left to right,
without overlap. -/
def pyReplaceAll (pat rep s : Line) : Line := replGo pat rep 0 s

/-- Decimal digit character for a heading level (`f"{i}"` for `i ≤ 9`). -/
def hDigit (i : Nat) : Char := Char.ofNat (48 + i)

/-- The replacement `f"<h{i}>{rest.strip()}</h{i}>\n"` built by the
heading rewriter at level `i` from the text `rest` after the marker. -/
def headingTag (i : Nat) (rest : Line) : Line :=
  str "<h" ++ [hDigit i] ++ str ">" ++ pyStrip rest
    ++ str "</h" ++ [hDigit i] ++ str ">\n"

/-- The loop `for i in range(6, 0, -1)` of the heading rewriter: try the
levels in the given order and rewrite at the first level `i` whose marker
`"#" * i + " "` is a prefix of the line (`break`); if none matches the
line is returned unchanged. -/
def headingLoop : List Nat → Line → Line
  | [], line => line
  | i :: is, line =>
    if (List.replicate i '#' ++ [' ']).isPrefixOf line then
      headingTag i (line.drop (i + 1))
    else
      headingLoop is line

/-- Per-line body of `convert_markdown_heading_to_html`. -/
def headingLine (line : Line) : Line := headingLoop [6, 5, 4, 3, 2, 1] line

/-- `convert_markdown_heading_to_html(lines)` from the source: rewrite
heading lines, keep every other line unchanged. -/
def convert_markdown_heading_to_html (lines : List Line) : List Line :=
  lines.map headingLine

/-- Loop body of `convert_markdown_ul_list_to_html`: state is the pair
`(in_list, html_lines)`. -/
def ulStep (acc : Bool × List Line) (line : Line) : Bool × List Line :=
  if (str "- ").isPrefixOf line then
    let lineContent := pyStrip (line.drop 2)
    let acc1 : Bool × List Line :=
      if acc.1 then acc else (true, acc.2 ++ [str "<ul>\n"])
    (true, acc1.2 ++ [str "   <li>" ++ lineContent ++ str "</li>\n"])
  else
    let acc1 : Bool × List Line :=
      if acc.1 then (false, acc.2 ++ [str "</ul>\n"]) else acc
    (false, acc1.2 ++ [line])

/-- Final step of `convert_markdown_ul_list_to_html`: close a list block
still open at end of input. -/
def ulFinish (r : Bool × List Line) : List Line :=
  if r.1 then r.2 ++ [str "</ul>\n"] else r.2

/-- `convert_markdown_ul_list_to_html(lines)` from the source. -/
def convert_markdown_ul_list_to_html (lines : List Line) : List Line :=
  ulFinish (lines.foldl ulStep (false, []))

/-- Loop body of `convert_markdown_ol_list_to_html`: identical to
`ulStep` except for the marker `"* "` and the `<ol>` tags. -/
def olStep (acc : Bool × List Line) (line : Line) : Bool × List Line :=
  if (str "* ").isPrefixOf line then
    let lineContent := pyStrip (line.drop 2)
    let acc1 : Bool × List Line :=
      if acc.1 then acc else (true, acc.2 ++ [str "<ol>\n"])
    (true, acc1.2 ++ [str "   <li>" ++ lineContent ++ str "</li>\n"])
  else
    let acc1 : Bool × List Line :=
      if acc.1 then (false, acc.2 ++ [str "</ol>\n"]) else acc
    (false, acc1.2 ++ [line])

/-- Final step of `convert_markdown_ol_list_to_html`. -/
def olFinish (r : Bool × List Line) : List Line :=
  if r.1 then r.2 ++ [str "</ol>\n"] else r.2

/-- `convert_markdown_ol_list_to_html(lines)` from the source. -/
def convert_markdown_ol_list_to_html (lines : List Line) : List Line :=
  olFinish (lines.foldl olStep (false, []))

/-- Classification used by the paragraph grouper:
`stripped_line and not stripped_line.startswith(("#", "-", "*"))`. -/
def parIsPlain (line : Line) : Bool :=
  match pyStrip line with
  | [] => false
  | c :: _ => !(c == '#' || c == '-' || c == '*')

/-- The paragraph content line `f"    {stripped_line}<br/>\n"`. -/
def parItem (line : Line) : Line :=
  str "    " ++ pyStrip line ++ str "<br/>\n"

/-- The close-step rewrite `s.replace("<br/>\n", "\n")` applied to the
last buffered line when a paragraph is closed. -/
def parClose (l : Line) : Line := pyReplaceAll (str "<br/>\n") (str "\n") l

/-- Rewrite the last element of the output buffer
(`html_lines[-1] = f(html_lines[-1])`).  The empty case is unreachable in
the program: the buffer is nonempty whenever `in_paragraph` is true. -/
def mutLast (f : Line → Line) : List Line → List Line
  | [] => []
  | [x] => [f x]
  | x :: y :: xs => x :: mutLast f (y :: xs)

/-- Loop body of `convert_markdown_paragraph_to_html`: state is the pair
`(in_paragraph, html_lines)`. -/
def parStep (acc : Bool × List Line) (line : Line) : Bool × List Line :=
  if parIsPlain line then
    let acc1 : Bool × List Line :=
      if acc.1 then acc else (true, acc.2 ++ [str "<p>\n"])
    (true, acc1.2 ++ [parItem line])
  else
    let acc1 : Bool × List Line :=
      if acc.1 then (false, mutLast parClose acc.2 ++ [str "</p>\n"]) else acc
    (false, acc1.2 ++ [line])

/-- Final step of `convert_markdown_paragraph_to_html`: close a paragraph
still open at end of input, stripping the dangling soft break. -/
def parFinish (r : Bool × List Line) : List Line :=
  if r.1 then mutLast parClose r.2 ++ [str "</p>\n"] else r.2

/-- `convert_markdown_paragraph_to_html(lines)` from the source. -/
def convert_markdown_paragraph_to_html (lines : List Line) : List Line :=
  parFinish (lines.foldl parStep (false, []))

/-- The four-stage pipeline exactly as composed in `main`. -/
def markdown_pipeline (lines : List Line) : List Line :=
  convert_markdown_paragraph_to_html
    (convert_markdown_ol_list_to_html
      (convert_markdown_ul_list_to_html
        (convert_markdown_heading_to_html lines)))

/-- Observable outcome of one program run: exit status, message printed
to the error stream (if any), and the file written (path and contents),
if any. -/
structure MainResult where
  exitCode : Nat
  errMsg : Option Line
  written : Option (Line × List Line)
deriving DecidableEq

/-- The usage message printed on invalid invocation. -/
def usageMsg : Line := str "Usage: ./markdown2html.py README.md README.html"

namespace Markdown2html

/-- `main()` from the source.  `argv` models `sys.argv` (so `argv[0]` is
the program name) and `fs` models the file system: `fs p = some ls` when
path `p` exists with lines `ls`, `fs p = none` when it does not. -/
def main (argv : List Line) (fs : Line → Option (List Line)) : MainResult :=
  if argv.length < 3 then
    ⟨1, some usageMsg, none⟩
  else
    let markdown_file := (argv[1]?).getD []
    let html_file := (argv[2]?).getD []
    match fs markdown_file with
    | none => ⟨1, some (str "Missing " ++ markdown_file), none⟩
    | some lines => ⟨0, none, some (html_file, markdown_pipeline lines)⟩

end Markdown2html

/-- The list-item line `f"   <li>{line[2:].strip()}</li>\n"` common to the
two list groupers (both slice off the two marker characters). -/
def liItem (l : Line) : Line :=
  str "   <li>" ++ pyStrip (l.drop 2) ++ str "</li>\n"

/-- The list-grouping state machine common to the two list groupers,
written with the marker and the container tag pair as parameters and the
`in_list` flag as explicit state.  The base case closes a block still
open at end of input. -/
def mdListGo (marker opn cls : Line) : Bool → List Line → List Line
  | b, [] => if b then [cls] else []
  | b, l :: ls =>
    if marker.isPrefixOf l then
      (if b then [] else [opn]) ++ liItem l :: mdListGo marker opn cls true ls
    else
      (if b then [cls] else []) ++ l :: mdListGo marker opn cls false ls

/-- Test for an unordered-list source line (`line.startswith("- ")`). -/
def isUlLine (l : Line) : Bool := (str "- ").isPrefixOf l

/-- Run-based specification of the unordered-list grouper: each maximal
run of `"- "`-lines becomes one `<ul>` block containing one `<li>` line
per run member; every other line is passed through. -/
def ulSpec : List Line → List Line
  | [] => []
  | l :: ls =>
    if isUlLine l then
      str "<ul>\n" :: liItem l :: (ls.takeWhile isUlLine).map liItem
        ++ str "</ul>\n" :: ulSpec (ls.dropWhile isUlLine)
    else
      l :: ulSpec ls
termination_by ls => ls.length
decreasing_by
  · have h := (List.dropWhile_sublist (l := ls) isUlLine).length_le
    simp only [List.length_cons]
    omega
  · simp only [List.length_cons]
    omega

/-- The paragraph-grouping state machine: the state is `none` outside a
paragraph, and `some p` inside a paragraph whose most recently emitted
content line `p` is still subject to the closing rewrite. -/
def parGo : Option Line → List Line → List Line
  | none, [] => []
  | some p, [] => [parClose p, str "</p>\n"]
  | none, l :: ls =>
    if parIsPlain l then str "<p>\n" :: parGo (some (parItem l)) ls
    else l :: parGo none ls
  | some p, l :: ls =>
    if parIsPlain l then p :: parGo (some (parItem l)) ls
    else parClose p :: str "</p>\n" :: l :: parGo none ls

/-- Container-balance scanner: walking the line sequence, an opening tag
is accepted only at depth 0, a closing tag only at depth 1, and the scan
must end at depth 0 — i.e. every emitted opening tag is matched by exactly
one closing tag, with no nesting and nothing left open. -/
def tagScan (opn cls : Line) : Nat → List Line → Bool
  | d, [] => d == 0
  | d, l :: ls =>
    if l = opn then d == 0 && tagScan opn cls 1 ls
    else if l = cls then d == 1 && tagScan opn cls 0 ls
    else tagScan opn cls d ls

/-- A line matches the heading rewriter's pattern: some level `i` with
`1 ≤ i ≤ 6` has its marker `"#" * i + " "` as a prefix of the line. -/
def headingMatches (l : Line) : Bool :=
  [1, 2, 3, 4, 5, 6].any fun i => (List.replicate i '#' ++ [' ']).isPrefixOf l

/-- Rewriting the last element of a nonempty buffer only touches that
element. -/
theorem mutLast_append (f : Line → Line) :
    ∀ (H : List Line) (p : Line), mutLast f (H ++ [p]) = H ++ [f p]
  | [], _ => rfl
  | [_], _ => rfl
  | x :: y :: H, p => by
    show x :: mutLast f ((y :: H) ++ [p]) = x :: ((y :: H) ++ [f p])
    rw [mutLast_append f (y :: H) p]

/-- The unordered-list fold, run from any flag and buffer and then
finished, emits exactly the buffer followed by the state machine's
output. -/
theorem ul_fold :
    ∀ (ls : List Line) (b : Bool) (H : List Line),
      ulFinish (ls.foldl ulStep (b, H))
        = H ++ mdListGo (str "- ") (str "<ul>\n") (str "</ul>\n") b ls := by
  intro ls
  induction ls with
  | nil =>
    intro b H
    cases b <;> simp [ulFinish, mdListGo]
  | cons l ls ih =>
    intro b H
    cases hl : (str "- ").isPrefixOf l <;> cases b <;>
      simp [List.foldl_cons, ulStep, hl, mdListGo, liItem, ih, List.append_assoc]

/-- The unordered-list grouper is the generic list state machine keyed on
marker `"- "` and the `<ul>` tag pair. -/
theorem ul_go (lines : List Line) :
    convert_markdown_ul_list_to_html lines
      = mdListGo (str "- ") (str "<ul>\n") (str "</ul>\n") false lines := by
  simpa [convert_markdown_ul_list_to_html] using ul_fold lines false []

/-- The ordered-list fold, run from any flag and buffer and then
finished, emits exactly the buffer followed by the state machine's
output. -/
theorem ol_fold :
    ∀ (ls : List Line) (b : Bool) (H : List Line),
      olFinish (ls.foldl olStep (b, H))
        = H ++ mdListGo (str "* ") (str "<ol>\n") (str "</ol>\n") b ls := by
  intro ls
  induction ls with
  | nil =>
    intro b H
    cases b <;> simp [olFinish, mdListGo]
  | cons l ls ih =>
    intro b H
    cases hl : (str "* ").isPrefixOf l <;> cases b <;>
      simp [List.foldl_cons, olStep, hl, mdListGo, liItem, ih, List.append_assoc]

/-- The ordered-list grouper is the generic list state machine keyed on
marker `"* "` and the `<ol>` tag pair. -/
theorem ol_go (lines : List Line) :
    convert_markdown_ol_list_to_html lines
      = mdListGo (str "* ") (str "<ol>\n") (str "</ol>\n") false lines := by
  simpa [convert_markdown_ol_list_to_html] using ol_fold lines false []

/-- The paragraph fold, run from either state and then finished, emits
exactly the buffer followed by the paragraph state machine's output. -/
theorem par_fold :
    ∀ ls : List Line,
      (∀ H : List Line,
        parFinish (ls.foldl parStep (false, H)) = H ++ parGo none ls)
    ∧ (∀ (H : List Line) (p : Line),
        parFinish (ls.foldl parStep (true, H ++ [p])) = H ++ parGo (some p) ls) := by
  intro ls
  induction ls with
  | nil =>
    constructor
    · intro H
      simp [parFinish, parGo]
    · intro H p
      simp [parFinish, parGo, mutLast_append]
  | cons l ls ih =>
    obtain ⟨ih0, ih1⟩ := ih
    constructor
    · intro H
      cases hl : parIsPlain l
      · have hstep : parStep (false, H) l = (false, H ++ [l]) := by
          simp [parStep, hl]
        rw [List.foldl_cons, hstep, ih0]
        simp [parGo, hl, List.append_assoc]
      · have hstep : parStep (false, H) l
            = (true, (H ++ [str "<p>\n"]) ++ [parItem l]) := by
          simp [parStep, hl, List.append_assoc]
        rw [List.foldl_cons, hstep, ih1]
        simp [parGo, hl, List.append_assoc]
    · intro H p
      cases hl : parIsPlain l
      · have hstep : parStep (true, H ++ [p]) l
            = (false, ((H ++ [parClose p]) ++ [str "</p>\n"]) ++ [l]) := by
          simp [parStep, hl, mutLast_append, List.append_assoc]
        rw [List.foldl_cons, hstep, ih0]
        simp [parGo, hl, List.append_assoc]
      · have hstep : parStep (true, H ++ [p]) l
            = (true, (H ++ [p]) ++ [parItem l]) := by
          simp [parStep, hl]
        rw [List.foldl_cons, hstep, ih1]
        simp [parGo, hl, List.append_assoc]

/-- The paragraph grouper is the paragraph state machine started outside
a paragraph. -/
theorem par_go (lines : List Line) :
    convert_markdown_paragraph_to_html lines = parGo none lines := by
  simpa [convert_markdown_paragraph_to_html] using (par_fold lines).1 []

/-- Exclusivity of the heading markers: a line made of exactly `i` hash
characters and then a space does not start with the level-`j` marker for
any other `j`. -/
theorem hash_excl :
    ∀ (j i : Nat) (t : Line), i ≠ j →
      ((List.replicate j '#' ++ [' ']).isPrefixOf
        (List.replicate i '#' ++ ' ' :: t)) = false := by
  intro j
  induction j with
  | zero =>
    intro i t hne
    cases i with
    | zero => exact absurd rfl hne
    | succ i' => simp [List.replicate_succ, List.isPrefixOf]
  | succ j ih =>
    intro i t hne
    cases i with
    | zero => simp [List.replicate_succ, List.isPrefixOf]
    | succ i' =>
      simp only [List.replicate_succ, List.cons_append, List.isPrefixOf]
      simp [ih i' t (by omega)]

/-- The level-`i` marker is a prefix of a line made of exactly `i` hash
characters, a space, and a tail. -/
theorem replicate_hash_isPrefix (i : Nat) (t : Line) :
    ((List.replicate i '#' ++ [' ']).isPrefixOf
      (List.replicate i '#' ++ ' ' :: t)) = true := by
  induction i with
  | zero => simp [List.isPrefixOf]
  | succ i ih => simp [List.replicate_succ, List.isPrefixOf, ih]

/-- Slicing off the marker (`line[i+1:]`) of an exact level-`i` heading
line leaves the tail. -/
theorem drop_hash (i : Nat) (t : Line) :
    (List.replicate i '#' ++ ' ' :: t).drop (i + 1) = t := by
  induction i with
  | zero => simp
  | succ i ih => simpa [List.replicate_succ] using ih

/-- A line matching no heading marker is left unchanged by the heading
rewriter. -/
theorem heading_noMatch (l : Line) (h : headingMatches l = false) :
    headingLine l = l := by
  have h' := List.any_eq_false.mp h
  have e1 : ¬ (['#', ' '] <+: l) := by simpa using h' 1 (by simp)
  have e2 : ¬ (['#', '#', ' '] <+: l) := by simpa using h' 2 (by simp)
  have e3 : ¬ (['#', '#', '#', ' '] <+: l) := by simpa using h' 3 (by simp)
  have e4 : ¬ (['#', '#', '#', '#', ' '] <+: l) := by simpa using h' 4 (by simp)
  have e5 : ¬ (['#', '#', '#', '#', '#', ' '] <+: l) := by
    simpa using h' 5 (by simp)
  have e6 : ¬ (['#', '#', '#', '#', '#', '#', ' '] <+: l) := by
    simpa using h' 6 (by simp)
  simp [headingLine, headingLoop, e1, e2, e3, e4, e5, e6]

/-- Inside a list block, the state machine emits one item per line of the
maximal matching run, then the closing tag, then continues outside the
block on the rest. -/
theorem mdListGo_inside (m o c : Line) :
    ∀ ls : List Line,
      mdListGo m o c true ls
        = (ls.takeWhile (fun l => m.isPrefixOf l)).map liItem
          ++ c :: mdListGo m o c false (ls.dropWhile (fun l => m.isPrefixOf l)) := by
  intro ls
  induction ls with
  | nil => simp [mdListGo]
  | cons l ls ih =>
    cases hl : m.isPrefixOf l
    · simp [mdListGo, hl, List.takeWhile_cons, List.dropWhile_cons]
    · simp [mdListGo, hl, List.takeWhile_cons, List.dropWhile_cons, ih]

/-- The unordered-list state machine started outside a block computes the
run-based specification `ulSpec`. -/
theorem mdListGo_ulSpec :
    ∀ ls : List Line,
      mdListGo (str "- ") (str "<ul>\n") (str "</ul>\n") false ls = ulSpec ls := by
  have key : ∀ (n : Nat) (ls : List Line), ls.length ≤ n →
      mdListGo (str "- ") (str "<ul>\n") (str "</ul>\n") false ls = ulSpec ls := by
    intro n
    induction n with
    | zero =>
      intro ls h
      have hnil : ls = [] := List.eq_nil_of_length_eq_zero (Nat.le_zero.mp h)
      subst hnil
      simp [mdListGo, ulSpec]
    | succ n ih =>
      intro ls h
      cases ls with
      | nil => simp [mdListGo, ulSpec]
      | cons l ls' =>
        have htl : ls'.length ≤ n := by
          simp only [List.length_cons] at h
          omega
        have efun : (fun l : Line => (str "- ").isPrefixOf l) = isUlLine := rfl
        cases hl : isUlLine l
        · have hl' : ((str "- ").isPrefixOf l) = false := hl
          rw [ulSpec]
          simp only [hl, Bool.false_eq_true, if_false]
          simp [mdListGo, hl']
          exact ih ls' htl
        · have hl' : ((str "- ").isPrefixOf l) = true := hl
          have hrest : (ls'.dropWhile isUlLine).length ≤ n := by
            have hs := (List.dropWhile_sublist (l := ls') isUlLine).length_le
            omega
          rw [ulSpec]
          simp only [hl, if_true]
          simp [mdListGo, hl', mdListGo_inside, efun, ih _ hrest]
  intro ls
  exact key ls.length ls le_rfl

/-- An item line starts with a space, so it is never equal to a line that
starts with another character. -/
theorem liItem_ne_of_head (x l : Line) (hne : l.head? ≠ some ' ') :
    liItem x ≠ l := by
  intro h
  have hh : (liItem x).head? = some ' ' := rfl
  rw [h] at hh
  exact hne hh

/-- Balance of the generic list state machine: provided no input line
collides with the container tags, the scan that demands
open-at-depth-0 / close-at-depth-1 / end-at-depth-0 accepts the output,
started at the depth corresponding to the current flag. -/
theorem tagScan_mdList (m o c : Line) (hoc : o ≠ c)
    (hio : ∀ x : Line, liItem x ≠ o) (hic : ∀ x : Line, liItem x ≠ c) :
    ∀ (ls : List Line) (b : Bool), (∀ l ∈ ls, l ≠ o ∧ l ≠ c) →
      tagScan o c (if b then 1 else 0) (mdListGo m o c b ls) = true := by
  intro ls
  induction ls with
  | nil =>
    intro b _
    cases b
    · simp [mdListGo, tagScan]
    · simp [mdListGo, tagScan, Ne.symm hoc]
  | cons l ls ih =>
    intro b hls
    have hl_tags := hls l (by simp)
    have hls' : ∀ x ∈ ls, x ≠ o ∧ x ≠ c := fun x hx => hls x (by simp [hx])
    cases hm : m.isPrefixOf l
    · cases b
      · simpa [mdListGo, hm, tagScan, hl_tags.1, hl_tags.2]
          using ih false hls'
      · simpa [mdListGo, hm, tagScan, Ne.symm hoc, hl_tags.1, hl_tags.2]
          using ih false hls'
    · cases b
      · simpa [mdListGo, hm, tagScan, hio (l), hic (l)] using ih true hls'
      · simpa [mdListGo, hm, tagScan, hio (l), hic (l)] using ih true hls'

/-- Lines not matching the marker pass through the generic list state
machine unchanged and in order. -/
theorem mdListGo_passthrough (m o c : Line) :
    ∀ (ls : List Line) (b : Bool),
      (ls.filter (fun l => !(m.isPrefixOf l))).Sublist (mdListGo m o c b ls) := by
  intro ls
  induction ls with
  | nil =>
    intro b
    cases b <;> simp [mdListGo]
  | cons l ls ih =>
    intro b
    cases hl : m.isPrefixOf l
    · have hbase := (ih false).cons₂ l
      cases b
      · simpa [mdListGo, hl, List.filter_cons] using hbase
      · simpa [mdListGo, hl, List.filter_cons] using hbase.cons _
    · have hbase := (ih true).cons (liItem l)
      cases b
      · simpa [mdListGo, hl, List.filter_cons] using hbase.cons _
      · simpa [mdListGo, hl, List.filter_cons] using hbase

/-- Lines the heading rewriter does not match pass through it unchanged
and in order. -/
theorem heading_passthrough :
    ∀ lines : List Line,
      (lines.filter (fun l => !headingMatches l)).Sublist
        (convert_markdown_heading_to_html lines) := by
  intro lines
  induction lines with
  | nil => simp [convert_markdown_heading_to_html]
  | cons l ls ih =>
    cases hl : headingMatches l
    · have hline := heading_noMatch l hl
      simpa [convert_markdown_heading_to_html, List.filter_cons, hl, hline]
        using ih.cons₂ l
    · simpa [convert_markdown_heading_to_html, List.filter_cons, hl]
        using ih.cons (headingLine l)

/-- Non-plain lines pass through the paragraph state machine unchanged
and in order, from either state. -/
theorem parGo_passthrough :
    ∀ ls : List Line,
      ((ls.filter (fun l => !parIsPlain l)).Sublist (parGo none ls))
    ∧ ∀ p : Line, (ls.filter (fun l => !parIsPlain l)).Sublist (parGo (some p) ls) := by
  intro ls
  induction ls with
  | nil =>
    constructor
    · simp [parGo]
    · intro p
      simp [parGo]
  | cons l ls ih =>
    obtain ⟨ih0, ih1⟩ := ih
    constructor
    · cases hl : parIsPlain l
      · simpa [parGo, hl, List.filter_cons] using ih0.cons₂ l
      · simpa [parGo, hl, List.filter_cons]
          using (ih1 (parItem l)).cons (str "<p>\n")
    · intro p
      cases hl : parIsPlain l
      · simpa [parGo, hl, List.filter_cons]
          using ((ih0.cons₂ l).cons (str "</p>\n")).cons (parClose p)
      · simpa [parGo, hl, List.filter_cons] using (ih1 (parItem l)).cons p

/-- Closing rewrite on an emitted content line: when the text before the
appended soft break contains no newline, `replace("<br/>\n", "\n")`
removes exactly the appended suffix and changes nothing else. -/
theorem replace_strip_br :
    ∀ t : Line, '\n' ∉ t →
      pyReplaceAll (str "<br/>\n") (str "\n") (t ++ str "<br/>\n")
        = t ++ str "\n" := by
  intro t
  induction t with
  | nil =>
    intro _
    decide
  | cons c t ih =>
    intro h
    have htail : '\n' ∉ t := fun hx => h (List.mem_cons_of_mem c hx)
    have hb : ((str "<br/>\n").isPrefixOf (c :: (t ++ str "<br/>\n"))) = false := by
      cases hbv : (str "<br/>\n").isPrefixOf (c :: (t ++ str "<br/>\n"))
      · rfl
      · exfalso
        obtain ⟨u, hu⟩ := List.isPrefixOf_iff_prefix.mp hbv
        have hu' : str "<br/>\n" ++ u = (c :: t) ++ str "<br/>\n" := hu
        have hlen := congrArg List.length hu'
        rw [List.length_append, List.length_append] at hlen
        have hu_ne : u ≠ [] := by
          intro h0
          rw [h0] at hlen
          simp at hlen
        rcases List.eq_nil_or_concat u with rfl | ⟨u', a, rfl⟩
        · exact hu_ne rfl
        · have ha : a = '\n' := by
            have hg := congrArg List.getLast? hu'
            rw [List.concat_eq_append, ← List.append_assoc] at hg
            rw [List.getLast?_concat, List.getLast?_append] at hg
            have hval : (List.getLast? (str "<br/>\n")).or ((c :: t).getLast?)
                = some '\n' := rfl
            rw [hval] at hg
            exact Option.some.inj hg
          subst ha
          have hA : List.count '\n' (str "<br/>\n") = 1 := by decide
          have hB : List.count '\n' ['\n'] = 1 := by decide
          have hC : List.count '\n' (c :: t) = 0 := List.count_eq_zero.mpr h
          have hD := congrArg (List.count '\n') hu'
          rw [List.concat_eq_append] at hD
          rw [List.count_append, List.count_append, List.count_append] at hD
          rw [hA, hB, hC] at hD
          omega
    show replGo (str "<br/>\n") (str "\n") 0 (c :: (t ++ str "<br/>\n"))
        = (c :: t) ++ str "\n"
    rw [replGo]
    rw [if_neg]
    · rw [show replGo (str "<br/>\n") (str "\n") 0 (t ++ str "<br/>\n")
          = pyReplaceAll (str "<br/>\n") (str "\n") (t ++ str "<br/>\n") from rfl]
      rw [ih htail]
      rfl
    · intro hcon
      rw [hb] at hcon
      exact absurd hcon.2 (by simp)

/-- Closing a paragraph turns the last content line `"    " + s + "<br/>\n"`
into `"    " + s + "\n"`, whenever the stripped text `s` has no interior
newline (true of every line read from a file). -/
theorem parClose_parItem (l : Line) (h : '\n' ∉ pyStrip l) :
    parClose (parItem l) = str "    " ++ pyStrip l ++ str "\n" := by
  have hmem : '\n' ∉ str "    " ++ pyStrip l := by
    intro hx
    rcases List.mem_append.mp hx with hx | hx
    · exact absurd hx (by decide)
    · exact h hx
  have := replace_strip_br (str "    " ++ pyStrip l) hmem
  simpa [parClose, parItem, List.append_assoc] using this

/-- Every emitted paragraph content line ends with the soft break and the
line terminator. -/
theorem parItem_endsWith_br (l : Line) :
    ((str "<br/>\n").isSuffixOf (parItem l)) = true := by
  have : (str "<br/>\n") <:+ parItem l :=
    ⟨str "    " ++ pyStrip l, by simp [parItem, List.append_assoc]⟩
  simpa using this

/-- Inside a paragraph, the state machine emits the pending line and one
content line per plain line of the maximal plain run, rewrites the last
of them with the closing rewrite, emits the closing tag, and continues
outside the paragraph on the rest. -/
theorem parGo_inside :
    ∀ (ls : List Line) (p : Line),
      parGo (some p) ls
        = mutLast parClose (p :: (ls.takeWhile parIsPlain).map parItem)
          ++ str "</p>\n" :: parGo none (ls.dropWhile parIsPlain) := by
  intro ls
  induction ls with
  | nil =>
    intro p
    simp [parGo, mutLast]
  | cons l ls ih =>
    intro p
    cases hl : parIsPlain l
    · simp [parGo, hl, List.takeWhile_cons, List.dropWhile_cons, mutLast]
    · simp [parGo, hl, List.takeWhile_cons, List.dropWhile_cons, ih, mutLast]

/-- From the inside state, the pending line is emitted either as it is
(when another plain line follows) or rewritten by the closing rewrite. -/
theorem parGo_pending_mem :
    ∀ (ls : List Line) (p : Line),
      p ∈ parGo (some p) ls ∨ parClose p ∈ parGo (some p) ls := by
  intro ls
  induction ls with
  | nil =>
    intro p
    right
    simp [parGo]
  | cons l ls ih =>
    intro p
    cases hl : parIsPlain l
    · right
      simp [parGo, hl]
    · left
      simp [parGo, hl]

/-- Every plain input line reappears in the paragraph state machine's
output as its paragraph content line, possibly rewritten by the closing
rewrite when it ends its block. -/
theorem parGo_plain_mem :
    ∀ (ls : List Line) (l : Line), l ∈ ls → parIsPlain l = true →
      ((parItem l ∈ parGo none ls ∨ parClose (parItem l) ∈ parGo none ls)
        ∧ ∀ p : Line,
            parItem l ∈ parGo (some p) ls
              ∨ parClose (parItem l) ∈ parGo (some p) ls) := by
  intro ls
  induction ls with
  | nil =>
    intro l hmem _
    exact absurd hmem (by simp)
  | cons x ls ih =>
    intro l hmem hpl
    rcases List.mem_cons.mp hmem with rfl | htl
    · constructor
      · rcases parGo_pending_mem ls (parItem l) with hmm | hmm
        · left
          simp [parGo, hpl]
          exact Or.inr hmm
        · right
          simp [parGo, hpl]
          exact Or.inr hmm
      · intro p
        rcases parGo_pending_mem ls (parItem l) with hmm | hmm
        · left
          simp [parGo, hpl]
          exact Or.inr hmm
        · right
          simp [parGo, hpl]
          exact Or.inr hmm
    · have ihl := ih l htl hpl
      constructor
      · cases hx : parIsPlain x
        · rcases ihl.1 with hmm | hmm
          · left
            simp [parGo, hx]
            exact Or.inr hmm
          · right
            simp [parGo, hx]
            exact Or.inr hmm
        · rcases ihl.2 (parItem x) with hmm | hmm
          · left
            simp [parGo, hx]
            exact Or.inr hmm
          · right
            simp [parGo, hx]
            exact Or.inr hmm
      · intro p
        cases hx : parIsPlain x
        · rcases ihl.1 with hmm | hmm
          · left
            simp [parGo, hx, List.mem_cons]
            exact Or.inr (Or.inr (Or.inr hmm))
          · right
            simp [parGo, hx, List.mem_cons]
            exact Or.inr (Or.inr (Or.inr hmm))
        · rcases ihl.2 (parItem x) with hmm | hmm
          · left
            simp [parGo, hx]
            exact Or.inr hmm
          · right
            simp [parGo, hx]
            exact Or.inr hmm

/-- The paragraph fold preserves the invariant that the output buffer is
nonempty whenever the `in_paragraph` flag is set, so the closing rewrite
of the last buffered line always has a line to rewrite. -/
theorem parStep_buffer_ne_nil :
    ∀ (ls : List Line) (acc : Bool × List Line),
      (acc.1 = true → acc.2 ≠ []) →
      ((ls.foldl parStep acc).1 = true → (ls.foldl parStep acc).2 ≠ []) := by
  intro ls
  induction ls with
  | nil =>
    intro acc h
    exact h
  | cons l ls ih =>
    intro acc h
    rw [List.foldl_cons]
    apply ih
    cases hl : parIsPlain l <;> cases hacc : acc.1 <;>
      simp [parStep, hl, hacc]

/-- C1: the heading rewriter replaces a line by
`"<hi>" + (text after marker, stripped) + "</hi>" + "\n"` precisely when
the line starts with exactly `i` hash characters (`1 ≤ i ≤ 6`) followed
by a space (`headingMatches` is equivalent to that shape), and leaves any
other line unchanged; in particular `"### Title\n"` becomes
`"<h3>Title</h3>\n"` and `"####### x\n"` (7 markers) is unchanged. -/
theorem claim_C1_heading_rewrite :
    (∀ l : Line, headingMatches l = true
        ↔ ∃ (i : Nat) (t : Line),
            1 ≤ i ∧ i ≤ 6 ∧ l = List.replicate i '#' ++ ' ' :: t)
  ∧ (∀ (i : Nat) (t : Line), 1 ≤ i → i ≤ 6 →
      headingLine (List.replicate i '#' ++ ' ' :: t)
        = str "<h" ++ [hDigit i] ++ str ">" ++ pyStrip t
          ++ str "</h" ++ [hDigit i] ++ str ">\n")
  ∧ (∀ l : Line, headingMatches l = false → headingLine l = l)
  ∧ convert_markdown_heading_to_html [str "### Title\n"]
      = [str "<h3>Title</h3>\n"]
  ∧ convert_markdown_heading_to_html [str "####### x\n"]
      = [str "####### x\n"] := by
  refine ⟨?_, ?_, heading_noMatch, by decide, by decide⟩
  · intro l
    constructor
    · intro h
      obtain ⟨i, hmem, hpre⟩ := List.any_eq_true.mp h
      obtain ⟨u, hu⟩ := List.isPrefixOf_iff_prefix.mp hpre
      have hbounds : 1 ≤ i ∧ i ≤ 6 := by
        fin_cases hmem <;> exact ⟨by decide, by decide⟩
      refine ⟨i, u, hbounds.1, hbounds.2, ?_⟩
      rw [← hu, List.append_assoc]
      rfl
    · rintro ⟨i, t, h1, h6, rfl⟩
      apply List.any_eq_true.mpr
      refine ⟨i, ?_, replicate_hash_isPrefix i t⟩
      interval_cases i <;> decide
  · intro i t h1 h6
    interval_cases i <;>
      simp [headingLine, headingLoop, headingTag, List.isPrefixOf]

/-- C2: the unordered-list grouper wraps each maximal run of `"- "` lines
in a single `<ul>` block, one `"   <li>...</li>\n"` item per run member
(text after the marker, stripped), and passes other lines through; in
particular `["- a\n", "- b\n", "x\n"]` maps to
`["<ul>\n", "   <li>a</li>\n", "   <li>b</li>\n", "</ul>\n", "x\n"]`. -/
theorem claim_C2_ul_grouping :
    (∀ lines : List Line,
        convert_markdown_ul_list_to_html lines = ulSpec lines)
  ∧ convert_markdown_ul_list_to_html [str "- a\n", str "- b\n", str "x\n"]
      = [str "<ul>\n", str "   <li>a</li>\n", str "   <li>b</li>\n",
         str "</ul>\n", str "x\n"] := by
  constructor
  · intro lines
    rw [ul_go, mdListGo_ulSpec]
  · decide

/-- C5: the ordered-list grouper runs the same state machine as the
unordered-list grouper, keyed on marker `"* "` and the `<ol>` tag pair
instead of `"- "` and the `<ul>` pair, with the identical item format; in
particular `["* a\n", "x\n"]` maps to
`["<ol>\n", "   <li>a</li>\n", "</ol>\n", "x\n"]`. -/
theorem claim_C5_ol_same_machine :
    (∀ lines : List Line,
        convert_markdown_ul_list_to_html lines
          = mdListGo (str "- ") (str "<ul>\n") (str "</ul>\n") false lines)
  ∧ (∀ lines : List Line,
        convert_markdown_ol_list_to_html lines
          = mdListGo (str "* ") (str "<ol>\n") (str "</ol>\n") false lines)
  ∧ convert_markdown_ol_list_to_html [str "* a\n", str "x\n"]
      = [str "<ol>\n", str "   <li>a</li>\n", str "</ol>\n", str "x\n"] :=
  ⟨ul_go, ol_go, by decide⟩

/-- C6: both list groupers emit balanced containers — every opening tag
they emit is closed exactly once, at depth discipline open-at-0 /
close-at-1 / end-at-0 (so a run of non-matching lines closes a block once
and a block open at end of input is closed), stated for inputs whose
lines do not themselves collide with the container tags; the concrete
case shows a block open before trailing blank lines being closed. -/
theorem claim_C6_balanced_containers :
    (∀ lines : List Line,
        (∀ l ∈ lines, l ≠ str "<ul>\n" ∧ l ≠ str "</ul>\n") →
        tagScan (str "<ul>\n") (str "</ul>\n") 0
          (convert_markdown_ul_list_to_html lines) = true)
  ∧ (∀ lines : List Line,
        (∀ l ∈ lines, l ≠ str "<ol>\n" ∧ l ≠ str "</ol>\n") →
        tagScan (str "<ol>\n") (str "</ol>\n") 0
          (convert_markdown_ol_list_to_html lines) = true)
  ∧ convert_markdown_ul_list_to_html [str "- a\n", str "\n", str "\n"]
      = [str "<ul>\n", str "   <li>a</li>\n", str "</ul>\n",
         str "\n", str "\n"] := by
  refine ⟨?_, ?_, by decide⟩
  · intro lines hl
    rw [ul_go]
    have := tagScan_mdList (str "- ") (str "<ul>\n") (str "</ul>\n")
      (by decide)
      (fun x => liItem_ne_of_head x _ (by decide))
      (fun x => liItem_ne_of_head x _ (by decide))
      lines false hl
    simpa using this
  · intro lines hl
    rw [ol_go]
    have := tagScan_mdList (str "* ") (str "<ol>\n") (str "</ol>\n")
      (by decide)
      (fun x => liItem_ne_of_head x _ (by decide))
      (fun x => liItem_ne_of_head x _ (by decide))
      lines false hl
    simpa using this

/-- C6 witness: the balance scan accepts both groupers' outputs on a
concrete input satisfying the no-collision hypothesis. -/
theorem claim_C6_balanced_containers_witness :
    tagScan (str "<ul>\n") (str "</ul>\n") 0
      (convert_markdown_ul_list_to_html [str "- a\n", str "x\n"]) = true
  ∧ tagScan (str "<ol>\n") (str "</ol>\n") 0
      (convert_markdown_ol_list_to_html [str "* a\n", str "x\n"]) = true :=
  ⟨claim_C6_balanced_containers.1 _ (by decide),
   claim_C6_balanced_containers.2.1 _ (by decide)⟩

/-- C7: for each of the four stages, every input line not matching that
stage's pattern appears in the stage's output unchanged (byte for byte,
terminator included) and in input order. -/
theorem claim_C7_passthrough (lines : List Line) :
    ((lines.filter fun l => !headingMatches l).Sublist
        (convert_markdown_heading_to_html lines))
  ∧ ((lines.filter fun l => !((str "- ").isPrefixOf l)).Sublist
        (convert_markdown_ul_list_to_html lines))
  ∧ ((lines.filter fun l => !((str "* ").isPrefixOf l)).Sublist
        (convert_markdown_ol_list_to_html lines))
  ∧ ((lines.filter fun l => !parIsPlain l).Sublist
        (convert_markdown_paragraph_to_html lines)) := by
  refine ⟨heading_passthrough lines, ?_, ?_, ?_⟩
  · rw [ul_go]
    exact mdListGo_passthrough _ _ _ lines false
  · rw [ol_go]
    exact mdListGo_passthrough _ _ _ lines false
  · rw [par_go]
    exact (parGo_passthrough lines).1

/-- C1 witness: the rewrite equation at level 2 on `"## x\n"` and the
unchanged case on `"#x\n"`, with all hypotheses discharged. -/
theorem claim_C1_heading_rewrite_witness :
    headingLine (List.replicate 2 '#' ++ ' ' :: str "x\n")
      = str "<h" ++ [hDigit 2] ++ str ">" ++ pyStrip (str "x\n")
        ++ str "</h" ++ [hDigit 2] ++ str ">\n"
  ∧ headingLine (str "#x\n") = str "#x\n" :=
  ⟨claim_C1_heading_rewrite.2.1 2 (str "x\n") (by decide) (by decide),
   claim_C1_heading_rewrite.2.2.1 (str "#x\n") (by decide)⟩

/-- C3 counterexample: on input `["x<br/>\n", "\n"]` the closed
paragraph's last content line is `"    x<br/>\n"`, which does end with
`"<br/>"` before its newline — the claim's invariant fails because the
closing rewrite removes only the appended suffix, not a `"<br/>"`
belonging to the line's own text. -/
theorem claim_C3_lastline_cex :
    convert_markdown_paragraph_to_html [str "x<br/>\n", str "\n"]
      = [str "<p>\n", str "    x<br/>\n", str "</p>\n", str "\n"]
  ∧ ((str "<br/>\n").isSuffixOf (str "    x<br/>\n")) = true :=
  ⟨by decide, by decide⟩

/-- C3 (amended): in the paragraph grouper's output each paragraph block
consists of the opening tag, one `"    " + s + "<br/>\n"` content line
per plain line of the maximal plain run with exactly the last of them
rewritten by `replace("<br/>\n", "\n")` (so the appended soft break is
removed — the last content line ends in `"<br/>"` only when the line's
own stripped text does), and the closing tag; every non-last content
line ends with `"<br/>\n"`; the stripping also happens for a paragraph
still open at end of input. -/
theorem claim_C3_lastline_amended :
    (∀ lines : List Line,
        convert_markdown_paragraph_to_html lines = parGo none lines)
  ∧ (∀ (l : Line) (ls : List Line), parIsPlain l = true →
        parGo none (l :: ls)
          = str "<p>\n"
            :: (mutLast parClose ((l :: ls.takeWhile parIsPlain).map parItem)
              ++ str "</p>\n" :: parGo none (ls.dropWhile parIsPlain)))
  ∧ (∀ l : Line, ((str "<br/>\n").isSuffixOf (parItem l)) = true)
  ∧ (∀ l : Line, '\n' ∉ pyStrip l →
        parClose (parItem l) = str "    " ++ pyStrip l ++ str "\n")
  ∧ convert_markdown_paragraph_to_html [str "line1\n", str "line2\n", str "\n"]
      = [str "<p>\n", str "    line1<br/>\n", str "    line2\n",
         str "</p>\n", str "\n"]
  ∧ convert_markdown_paragraph_to_html [str "line1\n", str "line2\n"]
      = [str "<p>\n", str "    line1<br/>\n", str "    line2\n",
         str "</p>\n"] := by
  refine ⟨par_go, ?_, parItem_endsWith_br, parClose_parItem, by decide, by decide⟩
  intro l ls hl
  simp [parGo, hl, parGo_inside, List.map_cons]

/-- C3 witness: the block-shape equation on a one-line paragraph, and the
last-line rewrite on a line whose own text ends in `"<br/>"`. -/
theorem claim_C3_lastline_amended_witness :
    parGo none [str "a\n"]
      = str "<p>\n"
        :: (mutLast parClose
              ((str "a\n" :: List.takeWhile parIsPlain ([] : List Line)).map parItem)
          ++ str "</p>\n" :: parGo none (List.dropWhile parIsPlain ([] : List Line)))
  ∧ parClose (parItem (str "x<br/>\n"))
      = str "    " ++ pyStrip (str "x<br/>\n") ++ str "\n" :=
  ⟨claim_C3_lastline_amended.2.1 (str "a\n") [] (by decide),
   claim_C3_lastline_amended.2.2.2.1 (str "x<br/>\n") (by decide)⟩

/-- C4: a line whose stripped form is nonempty and starts with none of
`'#'`, `'-'`, `'*'` is classified plain — in particular tag lines
produced by earlier stages such as `"<ul>\n"` or `"<h3>...</h3>\n"` —
and every plain input line reappears as paragraph content (possibly with
the closing rewrite applied); all stages are total functions, the
closing rewrite always has a buffered line to rewrite, and applying the
full pipeline to its own output re-wraps tag lines as paragraph content,
as the concrete double application shows. -/
theorem claim_C4_plain_classification_total :
    (∀ l : Line, pyStrip l ≠ [] →
        (∀ ch : Char, (pyStrip l).head? = some ch →
          ch ≠ '#' ∧ ch ≠ '-' ∧ ch ≠ '*') →
        parIsPlain l = true)
  ∧ parIsPlain (str "<ul>\n") = true
  ∧ parIsPlain (str "<h3>Title</h3>\n") = true
  ∧ (∀ (lines : List Line) (l : Line), l ∈ lines → parIsPlain l = true →
        parItem l ∈ convert_markdown_paragraph_to_html lines
          ∨ parClose (parItem l) ∈ convert_markdown_paragraph_to_html lines)
  ∧ (∀ lines : List Line,
        (lines.foldl parStep (false, [])).1 = true →
        (lines.foldl parStep (false, [])).2 ≠ [])
  ∧ markdown_pipeline (markdown_pipeline [str "### Title\n"])
      = [str "<p>\n", str "    <p><br/>\n", str "    <h3>Title</h3><br/>\n",
         str "    </p>\n", str "</p>\n"] := by
  refine ⟨?_, by decide, by decide, ?_, ?_, by decide⟩
  · intro l h1 h2
    cases e : pyStrip l with
    | nil => exact absurd e h1
    | cons c rest =>
      have hc := h2 c (by rw [e]; rfl)
      simp [parIsPlain, e, hc.1, hc.2.1, hc.2.2]
  · intro lines l hm hp
    rw [par_go]
    exact (parGo_plain_mem lines l hm hp).1
  · intro lines
    exact parStep_buffer_ne_nil lines (false, []) (by simp)

/-- C4 witness: classification and paragraph-wrapping of a concrete plain
line, with all hypotheses discharged. -/
theorem claim_C4_plain_classification_total_witness :
    parIsPlain (str "hello\n") = true
  ∧ (parItem (str "hello\n")
        ∈ convert_markdown_paragraph_to_html [str "hello\n"]
      ∨ parClose (parItem (str "hello\n"))
        ∈ convert_markdown_paragraph_to_html [str "hello\n"]) :=
  ⟨claim_C4_plain_classification_total.1 (str "hello\n") (by decide)
      (by
        intro ch hch
        have e : (pyStrip (str "hello\n")).head? = some 'h' := by decide
        rw [e] at hch
        have : ch = 'h' := (Option.some.inj hch).symm
        subst this
        decide),
   claim_C4_plain_classification_total.2.2.2.1 [str "hello\n"] (str "hello\n")
     (by decide) (by decide)⟩

/-- C10: closing a paragraph rewrites only the last buffered line,
replacing its appended `"<br/>\n"` suffix by `"\n"`; since a content
line has no interior newline, a `"<br/>"` inside the line's own stripped
text `s` is preserved and the closed paragraph's last content line is
exactly `"    " + s + "\n"`, as the concrete case with `s` ending in
`"<br/>"` shows. -/
theorem claim_C10_close_rewrites_only_last :
    (∀ (H : List Line) (p : Line),
        mutLast parClose (H ++ [p]) = H ++ [parClose p])
  ∧ (∀ l : Line, '\n' ∉ pyStrip l →
        parClose (parItem l) = str "    " ++ pyStrip l ++ str "\n")
  ∧ parClose (parItem (str "x<br/>\n")) = str "    x<br/>\n" :=
  ⟨mutLast_append parClose, parClose_parItem, by decide⟩

/-- C10 witness: only the last of two buffered lines is rewritten, and
the rewrite at a concrete line whose text ends in `"<br/>"`. -/
theorem claim_C10_close_rewrites_only_last_witness :
    mutLast parClose ([str "<p>\n", parItem (str "b\n")] ++ [parItem (str "c\n")])
      = [str "<p>\n", parItem (str "b\n")] ++ [parClose (parItem (str "c\n"))]
  ∧ parClose (parItem (str "hey<br/>\n"))
      = str "    " ++ pyStrip (str "hey<br/>\n") ++ str "\n" :=
  ⟨claim_C10_close_rewrites_only_last.1 _ _,
   claim_C10_close_rewrites_only_last.2.1 (str "hey<br/>\n") (by decide)⟩

/-- C8 counterexample: invoked with three positional arguments (four
`sys.argv` entries) and an existing source file, the program does not
print the usage message and exit 1 — it converts the file and exits 0,
because the code only checks `len(sys.argv) < 3` and ignores extra
arguments. -/
theorem claim_C8_argcount_cex :
    Markdown2html.main
        [str "./markdown2html.py", str "a.md", str "a.html", str "extra"]
        (fun p => if p = str "a.md" then some [str "Hi\n"] else none)
      = ⟨0, none, some (str "a.html",
          [str "<p>\n", str "    Hi\n", str "</p>\n"])⟩
  ∧ (Markdown2html.main
        [str "./markdown2html.py", str "a.md", str "a.html", str "extra"]
        (fun p => if p = str "a.md" then some [str "Hi\n"] else none)).exitCode
      ≠ 1 :=
  ⟨by decide, by decide⟩

/-- C8 (amended): only when invoked with fewer than two positional
arguments (`len(sys.argv) < 3`) does the program print the usage message
to the error stream and exit with status 1 producing no output file; with
two or more positional arguments any extras beyond the first two are
ignored. -/
theorem claim_C8_argcount_amended :
    (∀ (argv : List Line) (fs : Line → Option (List Line)),
        argv.length < 3 →
        Markdown2html.main argv fs = ⟨1, some usageMsg, none⟩)
  ∧ (∀ (argv : List Line) (fs : Line → Option (List Line)),
        3 ≤ argv.length →
        Markdown2html.main argv fs = Markdown2html.main (argv.take 3) fs) := by
  constructor
  · intro argv fs h
    simp [Markdown2html.main, h]
  · intro argv fs h
    have h1 : ¬ argv.length < 3 := by omega
    have h2 : ¬ (argv.take 3).length < 3 := by
      rw [List.length_take]
      omega
    simp only [Markdown2html.main, h1, h2, if_false]
    rw [List.getElem?_take_of_lt (by omega : (1 : Nat) < 3),
        List.getElem?_take_of_lt (by omega : (2 : Nat) < 3)]

/-- C8 witness: the usage error on a bare invocation, and extra-argument
irrelevance on a four-entry argument vector. -/
theorem claim_C8_argcount_amended_witness :
    Markdown2html.main [str "./markdown2html.py"] (fun _ => none)
      = ⟨1, some usageMsg, none⟩
  ∧ Markdown2html.main [str "p", str "a", str "b", str "c"] (fun _ => none)
      = Markdown2html.main ([str "p", str "a", str "b", str "c"].take 3)
          (fun _ => none) :=
  ⟨claim_C8_argcount_amended.1 _ _ (by decide),
   claim_C8_argcount_amended.2 _ _ (by decide)⟩

/-- C9: with two positional arguments and a nonexistent source path the
program prints `"Missing " + path` to the error stream, exits with
status 1 and writes no output file; when the source exists (and writing
succeeds, which the model represents) it exits with status 0, writing
the converted lines to the destination. -/
theorem claim_C9_src_missing_or_success :
    (∀ (prog src dst : Line) (fs : Line → Option (List Line)),
        fs src = none →
        Markdown2html.main [prog, src, dst] fs
          = ⟨1, some (str "Missing " ++ src), none⟩)
  ∧ (∀ (prog src dst : Line) (fs : Line → Option (List Line))
        (ls : List Line),
        fs src = some ls →
        Markdown2html.main [prog, src, dst] fs
          = ⟨0, none, some (dst, markdown_pipeline ls)⟩) := by
  constructor
  · intro prog src dst fs h
    simp [Markdown2html.main, h]
  · intro prog src dst fs ls h
    simp [Markdown2html.main, h]

/-- C9 witness: both outcomes on a concrete one-file file system. -/
theorem claim_C9_src_missing_or_success_witness :
    Markdown2html.main [str "p", str "no.md", str "out.html"]
        (fun q => if q = str "in.md" then some [str "hello\n"] else none)
      = ⟨1, some (str "Missing " ++ str "no.md"), none⟩
  ∧ Markdown2html.main [str "p", str "in.md", str "out.html"]
        (fun q => if q = str "in.md" then some [str "hello\n"] else none)
      = ⟨0, none, some (str "out.html", markdown_pipeline [str "hello\n"])⟩ :=
  ⟨claim_C9_src_missing_or_success.1 _ _ _ _ (by decide),
   claim_C9_src_missing_or_success.2 _ _ _ _ _ (by decide)⟩
